import Mathlib

/-!
Verification development for the certification-sentinel notification engine.

The definitions below are a shallow embedding of the expiry-classification and
notification-deduplication engine of the repository:

* `server/server.cjs` — `getExpiryStatus`, `monthDiff`, `daysDiff`,
  `hasSentMilestone`, `hasSentOverdueToday`, `addEmailLogRow`,
  `expandCert`, `runNotificationJob`, the `bootstrap` scheduler loop,
  `normalizeCertType`, `todayYmdIST`;
* `src/lib/expiryUtils.ts` — the date-fns based `getExpiryStatus`.

Modelling conventions:
* JavaScript `Date` values that have had their time-of-day stripped are
  modelled as civil calendar dates (`CalDate`); an instant is a civil date
  plus a millisecond offset within the day (`Moment`).  The deployment uses a
  single fixed UTC offset (IST) with no DST, so local-midnight-to-local-
  midnight differences are exact multiples of `MS_PER_DAY` and the local
  civil components of a midnight instant are the civil date itself.
* Machine timestamps are `Int` milliseconds; `Math.floor` division is
  `Int.fdiv`, `Math.trunc` division (date-fns default rounding) is `Int.div`.
* JavaScript `NaN` flowing out of an invalid date is modelled by `Option Int`
  with `none` for NaN; every JS comparison involving NaN is false, which is
  what `nanLt`/`nanLe` implement.
* The source renders IST calendar days as zero-padded `Y-M-D` strings
  (`toYMD`, `todayYmdIST`) and compares them for equality; two such strings
  are equal exactly when the underlying civil day numbers are equal, so the
  embedding compares the civil day numbers (`istDayOf`) directly.  The
  server process clock is modelled as UTC, under which `toYMD`'s local-time
  accessors and `todayYmdIST`'s UTC accessors render the same instant to the
  same day.
* SQL audit-log queries over `dbo.EmailLogs` are modelled as pure functions
  of the list of rows; `SELECT TOP 1 id ... ` followed by `Boolean(row.id)`
  is row existence (ids are `crypto.randomUUID()` strings, never falsy),
  and `ORDER BY sentAt DESC` followed by `TOP 1` picks a row of maximal
  `sentAt`.
-/

namespace CertSentinel

/-- A civil (proleptic Gregorian) calendar date, as carried by a JS `Date`
whose time-of-day has been zeroed. -/
structure CalDate where
  year : Int
  month : Int
  day : Int
deriving DecidableEq, Repr

/-- Milliseconds per day (`MS_PER_DAY` in server.cjs). -/
def MS_PER_DAY : Int := 24 * 60 * 60 * 1000

/-- Day number of a civil date counted from 1970-01-01 (the count a JS `Date`
at local midnight represents, in days).  Standard civil-from-days algorithm. -/
def daysFromCivil (c : CalDate) : Int :=
  let y := if c.month ≤ 2 then c.year - 1 else c.year
  let era := Int.fdiv y 400
  let yoe := y - era * 400
  let mp := Int.emod (c.month + 9) 12
  let doy := Int.fdiv (153 * mp + 2) 5 + c.day - 1
  let doe := yoe * 365 + Int.fdiv yoe 4 - Int.fdiv yoe 100 + doy
  era * 146097 + doe - 719468

/-- Inverse of `daysFromCivil`: the civil date of a day number. -/
def civilFromDays (z0 : Int) : CalDate :=
  let z := z0 + 719468
  let era := Int.fdiv z 146097
  let doe := z - era * 146097
  let yoe := Int.fdiv (doe - Int.fdiv doe 1460 + Int.fdiv doe 36524 - Int.fdiv doe 146096) 365
  let y := yoe + era * 400
  let doy := doe - (365 * yoe + Int.fdiv yoe 4 - Int.fdiv yoe 100)
  let mp := Int.fdiv (5 * doy + 2) 153
  let d := doy - Int.fdiv (153 * mp + 2) 5 + 1
  let m := mp + (if mp < 10 then 3 else -9)
  ⟨if m ≤ 2 then y + 1 else y, m, d⟩

def isLeapYear (y : Int) : Bool :=
  (Int.emod y 4 == 0 && Int.emod y 100 != 0) || Int.emod y 400 == 0

def daysInMonth (y m : Int) : Int :=
  if m = 2 then (if isLeapYear y then 29 else 28)
  else if m = 4 ∨ m = 6 ∨ m = 9 ∨ m = 11 then 30
  else 31

/-- `Date.getTime()` of a civil date at local midnight (fixed-offset clock:
the constant offset cancels in every difference the code takes, so it is
omitted). -/
def dateMs (c : CalDate) : Int := daysFromCivil c * MS_PER_DAY

/-- An instant: a civil date plus milliseconds since that date's midnight. -/
structure Moment where
  date : CalDate
  ms : Int
deriving DecidableEq, Repr

/-- `getTime()` of a `Moment`. -/
def Moment.t (m : Moment) : Int := dateMs m.date + m.ms

/-- JS `a < b` where `a` may be NaN (`none`). -/
def nanLt : Option Int → Int → Bool
  | some a, b => a < b
  | none, _ => false

/-- JS `a <= b` where `a` may be NaN (`none`). -/
def nanLe : Option Int → Int → Bool
  | some a, b => a ≤ b
  | none, _ => false

/-- The outcome of feeding a validity-end string to `new Date` / `parseISO`:
the string is empty (JS falsy), fails to parse (Invalid Date), or denotes a
civil date. -/
inductive YmdInput
  | empty
  | invalid
  | date (d : CalDate)
deriving DecidableEq, Repr

/-- JS truthiness of the validity-end string. -/
def YmdInput.truthy : YmdInput → Bool
  | .empty => false
  | _ => true

/-- The eight expiry buckets. -/
inductive Bucket
  | safe
  | overdue
  | dayBefore
  | week
  | twoWeeks
  | month
  | threeMonths
  | sixMonths
deriving DecidableEq, Repr

/-- The bucket-name strings used by the server code. -/
def bucketName : Bucket → String
  | .safe => "safe"
  | .overdue => "overdue"
  | .dayBefore => "day-before"
  | .week => "week"
  | .twoWeeks => "2-weeks"
  | .month => "month"
  | .threeMonths => "3-months"
  | .sixMonths => "6-months"

/-- server.cjs `monthDiff(a, b)`: calendar months from `a` to `b` with a
day-of-month borrow. -/
def monthDiff (a b : CalDate) : Int :=
  let diff := (b.year - a.year) * 12 + (b.month - a.month)
  if b.day < a.day then diff - 1 else diff

/-- server.cjs `daysDiff(a, b)` on already-midnight timestamps:
`Math.floor((b - a) / MS_PER_DAY)`. -/
def jsDaysDiff (aMs bMs : Int) : Int := Int.fdiv (bMs - aMs) MS_PER_DAY

/-- server.cjs `getExpiryStatus(validityUptoYmd)`, with the implicit
`new Date()` "today" made explicit.  An invalid date makes every numeric
comparison a comparison with NaN, hence false. -/
def getExpiryStatus (validityUpto : YmdInput) (today : CalDate) : Bucket :=
  match validityUpto with
  | .empty => Bucket.safe
  | v =>
    let expiryMs : Option Int :=
      match v with
      | .date e => some (dateMs e)
      | _ => none
    let todayMs : Int := dateMs today
    if nanLt expiryMs todayMs then Bucket.overdue
    else
      let daysUntil : Option Int := expiryMs.map (fun em => jsDaysDiff todayMs em)
      if nanLe daysUntil 1 then Bucket.dayBefore
      else if nanLe daysUntil 7 then Bucket.week
      else if nanLe daysUntil 14 then Bucket.twoWeeks
      else
        let monthsUntil : Option Int :=
          match v with
          | .date e => some (monthDiff today e)
          | _ => none
        if nanLe monthsUntil 1 then Bucket.month
        else if nanLe monthsUntil 3 then Bucket.threeMonths
        else if nanLe monthsUntil 6 then Bucket.sixMonths
        else Bucket.safe

/-! ## Frontend classifier (src/lib/expiryUtils.ts, date-fns v2 semantics) -/

/-- JS `compareAsc(a, b)` on two valid timestamps: -1, 0 or 1. -/
def jsSign (a b : Int) : Int := if a < b then -1 else if b < a then 1 else 0

/-- JS `Date.prototype.setDate(n)` (day-of-month overflow rolls into later
months by date arithmetic). -/
def jsSetDate (c : CalDate) (n : Int) : CalDate :=
  civilFromDays (daysFromCivil ⟨c.year, c.month, 1⟩ + (n - 1))

/-- JS `Date.prototype.setMonth(m0)` with a zero-based month argument:
the year absorbs `⌊m0/12⌋`, and a day-of-month beyond the target month's
length rolls forward by date arithmetic. -/
def jsSetMonth0 (c : CalDate) (m0 : Int) : CalDate :=
  let y := c.year + Int.fdiv m0 12
  let m := Int.emod m0 12 + 1
  civilFromDays (daysFromCivil ⟨y, m, 1⟩ + (c.day - 1))

/-- date-fns `isLastDayOfMonth` on a valid civil date. -/
def isLastDayOfMonth (c : CalDate) : Bool := c.day == daysInMonth c.year c.month

/-- date-fns `differenceInDays(expiry, now)` where `expiry` is a
`parseISO` result (local midnight when valid, Invalid Date otherwise) and
`now` is the current instant.  NaN propagates as `none`. -/
def dfnsDiffDays (l : Option CalDate) (r : Moment) : Option Int :=
  match l with
  | none => none
  | some e =>
    let sign := jsSign (dateMs e) r.t
    let difference := |daysFromCivil e - daysFromCivil r.date|
    let shifted := daysFromCivil e - sign * difference
    let isLastDayNotFull : Int :=
      if jsSign (shifted * MS_PER_DAY) r.t = -sign then 1 else 0
    some (sign * (difference - isLastDayNotFull))

/-- date-fns `differenceInWeeks(expiry, now)` with the default `trunc`
rounding. -/
def dfnsDiffWeeks (l : Option CalDate) (r : Moment) : Option Int :=
  (dfnsDiffDays l r).map (fun d => Int.tdiv d 7)

/-- date-fns `differenceInMonths(expiry, now)` (v2 algorithm, including the
end-of-February workaround and the full-calendar-month correction). -/
def dfnsDiffMonths (l : Option CalDate) (r : Moment) : Option Int :=
  match l with
  | none => none
  | some e =>
    let sign := jsSign (dateMs e) r.t
    let difference := |(e.year * 12 + e.month) - (r.date.year * 12 + r.date.month)|
    if difference < 1 then some 0
    else
      let e1 := if e.month = 2 ∧ 27 < e.day then jsSetDate e 30 else e
      let e2 := jsSetMonth0 e1 ((e1.month - 1) - sign * difference)
      let notFull0 : Bool := jsSign (dateMs e2) r.t == -sign
      let notFull : Bool :=
        if isLastDayOfMonth e ∧ difference = 1 ∧ jsSign (dateMs e) r.t = 1 then false
        else notFull0
      some (sign * (difference - (if notFull then 1 else 0)))

/-- date-fns `isPast(expiry)`: `expiry.getTime() < Date.now()`; false when
the date is invalid (NaN comparison). -/
def isPastFE (l : Option CalDate) (now : Moment) : Bool :=
  match l with
  | none => false
  | some e => dateMs e < now.t

/-- expiryUtils.ts `getExpiryStatus(validityUpto)`, with the implicit
`new Date()` "now" made explicit. -/
def getExpiryStatusFE (validityUpto : YmdInput) (now : Moment) : Bucket :=
  match validityUpto with
  | .empty => Bucket.safe
  | v =>
    let expiryDate : Option CalDate :=
      match v with
      | .date e => some e
      | _ => none
    if isPastFE expiryDate now then Bucket.overdue
    else
      let daysUntil := dfnsDiffDays expiryDate now
      let weeksUntil := dfnsDiffWeeks expiryDate now
      let monthsUntil := dfnsDiffMonths expiryDate now
      if nanLe daysUntil 1 then Bucket.dayBefore
      else if nanLe daysUntil 7 then Bucket.week
      else if nanLe weeksUntil 2 then Bucket.twoWeeks
      else if nanLe monthsUntil 1 then Bucket.month
      else if nanLe monthsUntil 3 then Bucket.threeMonths
      else if nanLe monthsUntil 6 then Bucket.sixMonths
      else Bucket.safe

/-! ## Audit log store and deduplication oracle (server.cjs) -/

/-- One row of `dbo.EmailLogs` (the `id` column, a `crypto.randomUUID()`
string, is never falsy and never consulted beyond existence, so it is
omitted). -/
structure EmailLog where
  certificationId : String
  recipientEmail : String
  emailType : String
  milestone : String
  sentAt : Int
  status : String
  error : Option String
deriving DecidableEq, Repr

/-- server.cjs `hasSentMilestone`: does the log contain a `sent` row of type
`reminder` for this (certification, recipient, milestone)? -/
def hasSentMilestone (log : List EmailLog) (certId recipientEmail milestone : String) : Bool :=
  log.any fun r =>
    r.certificationId == certId && r.recipientEmail == recipientEmail &&
    r.emailType == "reminder" && r.milestone == milestone && r.status == "sent"

/-- The rows `hasSentOverdueToday`'s query matches. -/
def overdueMatches (log : List EmailLog) (certId recipientEmail milestone : String) :
    List EmailLog :=
  log.filter fun r =>
    r.certificationId == certId && r.recipientEmail == recipientEmail &&
    r.emailType == "overdue" && r.milestone == milestone && r.status == "sent"

/-- `ORDER BY sentAt DESC` + `TOP 1`: the maximal `sentAt` among the matched
rows (ties share the same `sentAt`, so any choice of row agrees). -/
def maxSentAt : List Int → Option Int
  | [] => none
  | t :: ts =>
    match maxSentAt ts with
    | none => some t
    | some m => some (max t m)

/-- The IST civil day of a machine timestamp: the day number rendered by
`toYMD(new Date(t + 330*60*1000))` / `todayYmdIST()` (the zero-padded
`Y-M-D` string of a civil day determines the day number and vice versa). -/
def istDayOf (t : Int) : Int := Int.fdiv (t + 330 * 60 * 1000) MS_PER_DAY

/-- server.cjs `hasSentOverdueToday`: the most recent `sent` overdue row for
the tuple exists and its IST calendar day equals today's IST calendar day. -/
def hasSentOverdueToday (log : List EmailLog) (certId recipientEmail milestone : String)
    (todayIstDay : Int) : Bool :=
  match maxSentAt ((overdueMatches log certId recipientEmail milestone).map (·.sentAt)) with
  | none => false
  | some t => istDayOf t == todayIstDay

/-! ## Certification rows and virtual-row expansion (server.cjs) -/

/-- JS `String.prototype.trim().toUpperCase()` over the characters of the
string. -/
def trimUpper (raw : String) : List Char :=
  ((((raw.toList.dropWhile (·.isWhitespace)).reverse.dropWhile
      (·.isWhitespace)).reverse).map Char.toUpper)

/-- server.cjs `normalizeCertType`. -/
def normalizeCertType (raw : String) : String :=
  let s := trimUpper raw
  let hasBIS := decide ("BIS".toList <:+: s)
  let hasIEC := decide ("IEC".toList <:+: s)
  if hasBIS && hasIEC then "BIS & IEC"
  else if hasIEC then "IEC"
  else "BIS"

/-- A stored certification row with the fields the notification engine
consults.  Free-text columns are strings (empty = SQL NULL = JS falsy);
validity columns are parse outcomes.  `plant`, `address` and
`attachmentName` stand for the shared fields a virtual certification
inherits via the `{ ...row }` spread. -/
structure Cert where
  id : String
  plant : String
  address : String
  attachmentName : String
  type : String
  rNo : String
  status : String
  modelList : String
  standard : String
  validityFrom : YmdInput
  validityUpto : YmdInput
  renewalStatus : String
  alarmAlert : String
  action : String
  bisRNo : String
  bisStatus : String
  bisModelList : String
  bisStandard : String
  bisValidityFrom : YmdInput
  bisValidityUpto : YmdInput
  bisRenewalStatus : String
  bisAlarmAlert : String
  bisAction : String
  iecRNo : String
  iecStatus : String
  iecModelList : String
  iecStandard : String
  iecValidityFrom : YmdInput
  iecValidityUpto : YmdInput
  iecRenewalStatus : String
  iecAlarmAlert : String
  iecAction : String
deriving DecidableEq, Repr

/-- A virtual certification: the spread row (legacy fields overridden) plus
the `_typeKey` tag. -/
structure VCert where
  row : Cert
  typeKey : String
deriving DecidableEq, Repr

/-- server.cjs `expandCert`: a row with legacy row-wise fields is one
notification unit; otherwise the BIS and/or IEC sub-field groups each yield
a virtual certification; a row with neither yields none. -/
def expandCert (row : Cert) : List VCert :=
  let hasLegacy :=
    row.rNo != "" || row.validityUpto.truthy || row.validityFrom.truthy ||
    row.status != "" || row.modelList != "" || row.standard != "" ||
    row.action != "" || row.alarmAlert != ""
  if hasLegacy then
    let t := normalizeCertType (if row.type == "" then "BIS" else row.type)
    let oneType := if t == "BIS & IEC" then "BIS" else t
    [⟨{ row with type := oneType }, oneType⟩]
  else
    let hasBIS :=
      row.bisRNo != "" || row.bisValidityUpto.truthy ||
      row.bisValidityFrom.truthy || row.bisStatus != ""
    let hasIEC :=
      row.iecRNo != "" || row.iecValidityUpto.truthy ||
      row.iecValidityFrom.truthy || row.iecStatus != ""
    (if hasBIS then
      [⟨{ row with
            type := "BIS", rNo := row.bisRNo, status := row.bisStatus,
            modelList := row.bisModelList, standard := row.bisStandard,
            validityFrom := row.bisValidityFrom, validityUpto := row.bisValidityUpto,
            renewalStatus := row.bisRenewalStatus, alarmAlert := row.bisAlarmAlert,
            action := row.bisAction }, "BIS"⟩]
     else []) ++
    (if hasIEC then
      [⟨{ row with
            type := "IEC", rNo := row.iecRNo, status := row.iecStatus,
            modelList := row.iecModelList, standard := row.iecStandard,
            validityFrom := row.iecValidityFrom, validityUpto := row.iecValidityUpto,
            renewalStatus := row.iecRenewalStatus, alarmAlert := row.iecAlarmAlert,
            action := row.iecAction }, "IEC"⟩]
     else [])

/-! ## Notification dispatcher (server.cjs `runNotificationJob`) -/

/-- A recipient as the dispatcher sees it (`fetchActiveRecipients` already
filters on the active flag in SQL). -/
structure Recipient where
  email : String
deriving DecidableEq, Repr

/-- The dispatcher's environment: the wall clock read by each
`addEmailLogRow` call (indexed by write-call count), the outcome of each
`INSERT` (indexed likewise; `some msg` = the storage layer throws `msg`),
the outcome of each `sendEmail` call (indexed by send-call count; `some msg`
= the gateway throws an error rendering as `msg`), the local calendar date
used by `getExpiryStatus`, and the IST civil day used by the overdue
deduplication. -/
structure Env where
  clock : Nat → Int
  writeFails : Nat → Option String
  gateway : Nat → Option String
  today : CalDate
  todayIstDay : Int

/-- The dispatcher's evolving state: the durable audit log, the two run
counters, and the write/send call counters. -/
structure JobSt where
  log : List EmailLog
  sent : Nat
  skipped : Nat
  wix : Nat
  six : Nat
deriving DecidableEq, Repr

/-- `addEmailLogRow`'s error treatment: `error ? String(error).slice(0, 4000)
: null` (an empty string is falsy). -/
def truncErr : Option String → Option String
  | none => none
  | some s => if s == "" then none else some (String.mk (s.toList.take 4000))

/-- server.cjs `addEmailLogRow`: capture `new Date()`, then attempt the
`INSERT`; a storage failure leaves the log unchanged and throws. -/
def addEmailLogRow (env : Env) (st : JobSt)
    (certificationId recipientEmail emailType milestone status : String)
    (error : Option String) : JobSt × Option String :=
  let sentAt := env.clock st.wix
  match env.writeFails st.wix with
  | some e => ({ st with wix := st.wix + 1 }, some e)
  | none =>
    ({ st with
        log := st.log ++
          [⟨certificationId, recipientEmail, emailType, milestone, sentAt, status,
            truncErr error⟩],
        wix := st.wix + 1 }, none)

/-- The `for (const r of toSend) await addEmailLogRow(...)` loops: writes the
rows in order; the first storage failure aborts the loop and rethrows,
leaving the earlier rows durable. -/
def logRows (env : Env) (certId : String) (emails : List String)
    (emailType milestone status : String) (error : Option String)
    (st : JobSt) : JobSt × Option String :=
  match emails with
  | [] => (st, none)
  | e :: rest =>
    let out := addEmailLogRow env st certId e emailType milestone status error
    match out.2 with
    | some msg => (out.1, some msg)
    | none => logRows env certId rest emailType milestone status error out.1

/-- The bucket of a virtual certification on this run. -/
def certStatus (env : Env) (vc : VCert) : Bucket :=
  getExpiryStatus vc.row.validityUpto env.today

/-- The milestone key `${cert._typeKey}:${milestoneBase}`. -/
def certMilestone (env : Env) (vc : VCert) : String :=
  vc.typeKey ++ ":" ++
    (if certStatus env vc = Bucket.overdue then "overdue" else bucketName (certStatus env vc))

/-- The `emailType` column value for this certification's bucket. -/
def certEmailType (env : Env) (vc : VCert) : String :=
  if certStatus env vc = Bucket.overdue then "overdue" else "reminder"

/-- The owed send list: the recipients the deduplication oracle has not yet
suppressed for this milestone. -/
def certToSend (env : Env) (recipients : List Recipient) (vc : VCert)
    (log : List EmailLog) : List Recipient :=
  recipients.filter fun r =>
    if certStatus env vc = Bucket.overdue then
      ! hasSentOverdueToday log vc.row.id r.email (certMilestone env vc) env.todayIstDay
    else
      ! hasSentMilestone log vc.row.id r.email (certMilestone env vc)

/-- Processing of one virtual certification inside `runNotificationJob`:
classify, build the send list, attempt one batched send, then write one
audit row per recipient inside the per-certification `try/catch`.  The
second component is an error escaping the `try/catch` (only a storage
failure while writing the *catch* branch's rows can produce one). -/
def processVCert (env : Env) (recipients : List Recipient) (vc : VCert)
    (st : JobSt) : JobSt × Option String :=
  if certStatus env vc = Bucket.safe then
    ({ st with skipped := st.skipped + 1 }, none)
  else
    let milestone := certMilestone env vc
    let etype := certEmailType env vc
    let toSend := certToSend env recipients vc st.log
    if toSend = [] then ({ st with skipped := st.skipped + 1 }, none)
    else
      let st1 := { st with six := st.six + 1 }
      match env.gateway st.six with
      | none =>
        let out := logRows env vc.row.id (toSend.map (·.email)) etype milestone "sent" none st1
        match out.2 with
        | none => ({ out.1 with sent := out.1.sent + 1 }, none)
        | some e =>
          logRows env vc.row.id (toSend.map (·.email)) etype milestone "failed" (some e) out.1
      | some gerr =>
        logRows env vc.row.id (toSend.map (·.email)) etype milestone "failed" (some gerr) st1

/-- The inner `for (const cert of virtuals)` loop; an uncaught error aborts
the whole run (there is no outer handler inside `runNotificationJob`). -/
def processVirtuals (env : Env) (recipients : List Recipient) :
    List VCert → JobSt → JobSt × Option String
  | [], st => (st, none)
  | vc :: rest, st =>
    let out := processVCert env recipients vc st
    match out.2 with
    | some e => (out.1, some e)
    | none => processVirtuals env recipients rest out.1

/-- The outer `for (const parent of certs)` loop: expand each stored row; a
row with no virtual certifications counts as skipped. -/
def processParents (env : Env) (recipients : List Recipient) :
    List Cert → JobSt → JobSt × Option String
  | [], st => (st, none)
  | parent :: rest, st =>
    let virtuals := expandCert parent
    if virtuals = [] then
      processParents env recipients rest { st with skipped := st.skipped + 1 }
    else
      let out := processVirtuals env recipients virtuals st
      match out.2 with
      | some e => (out.1, some e)
      | none => processParents env recipients rest out.1

/-- server.cjs `runNotificationJob`, over the pre-existing audit log `log0`:
with no active recipients the run short-circuits (`reason: "no_recipients"`,
not modelled beyond the unchanged state); otherwise the certification loop
runs and any storage error escapes to the caller (second component). -/
def runNotificationJob (env : Env) (recipients : List Recipient)
    (certs : List Cert) (log0 : List EmailLog) : JobSt × Option String :=
  if recipients = [] then (⟨log0, 0, 0, 0, 0⟩, none)
  else processParents env recipients certs ⟨log0, 0, 0, 0, 0⟩

/-! ## Scheduler (server.cjs `bootstrap`'s `setInterval` handler) -/

/-- `getUTCHours` of `now + 330 minutes`: the IST hour of day. -/
def istHour (t : Int) : Int := Int.emod (Int.fdiv (t + 330 * 60 * 1000) 3600000) 24

/-- `getUTCMinutes` of `now + 330 minutes`: the IST minute. -/
def istMin (t : Int) : Int := Int.emod (Int.fdiv (t + 330 * 60 * 1000) 60000) 60

/-- The scheduler's state: the in-memory `lastRunYmd` marker (as an IST day
number, see `istDayOf`) and the count of dispatcher invocations so far
(indexing the `runOk` oracle below). -/
structure SchedSt where
  lastRunYmd : Option Int
  runIdx : Nat
deriving DecidableEq, Repr

/-- One `setInterval` tick at machine time `now`: if IST time is at or past
09:00 and the marker differs from today's IST day, invoke the dispatcher
(`runOk k` tells whether the `k`-th invocation completes without throwing);
the marker is set only after a completed run — the surrounding `catch`
swallows a thrown run and leaves the marker unchanged.  Returns the new
state and whether the dispatcher was invoked. -/
def schedTick (runOk : Nat → Bool) (st : SchedSt) (now : Int) : SchedSt × Bool :=
  let hh := istHour now
  let mm := istMin now
  let ymd := istDayOf now
  let afterNine := hh > 9 || (hh == 9 && mm >= 0)
  if afterNine && (st.lastRunYmd != some ymd) then
    if runOk st.runIdx then (⟨some ymd, st.runIdx + 1⟩, true)
    else (⟨st.lastRunYmd, st.runIdx + 1⟩, true)
  else (st, false)

/-- A sequence of ticks; returns the final state and the IST days on which
the dispatcher was invoked, in order. -/
def schedRun (runOk : Nat → Bool) : List Int → SchedSt → SchedSt × List Int
  | [], st => (st, [])
  | t :: ts, st =>
    let out := schedTick runOk st t
    let rest := schedRun runOk ts out.1
    (rest.1, (if out.2 then [istDayOf t] else []) ++ rest.2)

/-! ## Supporting lemmas -/

lemma dateMs_lt_iff (a b : CalDate) :
    dateMs a < dateMs b ↔ daysFromCivil a < daysFromCivil b := by
  unfold dateMs MS_PER_DAY
  omega

lemma jsDaysDiff_dateMs (a b : CalDate) :
    jsDaysDiff (dateMs a) (dateMs b) = daysFromCivil b - daysFromCivil a := by
  unfold jsDaysDiff dateMs
  rw [← sub_mul]
  exact Int.mul_fdiv_cancel _ (by decide)

lemma monthDiff_formula (a b : CalDate) :
    monthDiff a b =
      (b.year * 12 + b.month) - (a.year * 12 + a.month) -
        (if b.day < a.day then 1 else 0) := by
  unfold monthDiff
  split <;> ring

lemma getExpiryStatus_date_eq (e t : CalDate) :
    getExpiryStatus (YmdInput.date e) t =
      (if daysFromCivil e < daysFromCivil t then Bucket.overdue
       else if daysFromCivil e - daysFromCivil t ≤ 1 then Bucket.dayBefore
       else if daysFromCivil e - daysFromCivil t ≤ 7 then Bucket.week
       else if daysFromCivil e - daysFromCivil t ≤ 14 then Bucket.twoWeeks
       else if (e.year * 12 + e.month) - (t.year * 12 + t.month) -
           (if e.day < t.day then 1 else 0) ≤ 1 then Bucket.month
       else if (e.year * 12 + e.month) - (t.year * 12 + t.month) -
           (if e.day < t.day then 1 else 0) ≤ 3 then Bucket.threeMonths
       else if (e.year * 12 + e.month) - (t.year * 12 + t.month) -
           (if e.day < t.day then 1 else 0) ≤ 6 then Bucket.sixMonths
       else Bucket.safe) := by
  simp only [getExpiryStatus, nanLt, nanLe, Option.map_some', jsDaysDiff_dateMs,
    dateMs_lt_iff, monthDiff_formula, decide_eq_true_eq]

/-- C1: the server classifier returns the first matching bucket of the fixed
priority ladder — absent validity-end is `safe`; a validity-end strictly
before today (time-of-day stripped) is `overdue`; then day/week thresholds
on the midnight-to-midnight day count; then calendar-month thresholds using
`(endYear*12+endMonth) - (todayYear*12+todayMonth)` minus one when
`endDay < todayDay`; otherwise `safe`.  A validity-end equal to today
classifies as `day-before`. -/
theorem classifier_follows_priority_ladder :
    ∀ (e t : CalDate),
      (getExpiryStatus (YmdInput.date e) t =
        (if daysFromCivil e < daysFromCivil t then Bucket.overdue
         else if daysFromCivil e - daysFromCivil t ≤ 1 then Bucket.dayBefore
         else if daysFromCivil e - daysFromCivil t ≤ 7 then Bucket.week
         else if daysFromCivil e - daysFromCivil t ≤ 14 then Bucket.twoWeeks
         else if (e.year * 12 + e.month) - (t.year * 12 + t.month) -
             (if e.day < t.day then 1 else 0) ≤ 1 then Bucket.month
         else if (e.year * 12 + e.month) - (t.year * 12 + t.month) -
             (if e.day < t.day then 1 else 0) ≤ 3 then Bucket.threeMonths
         else if (e.year * 12 + e.month) - (t.year * 12 + t.month) -
             (if e.day < t.day then 1 else 0) ≤ 6 then Bucket.sixMonths
         else Bucket.safe)) ∧
      getExpiryStatus YmdInput.empty t = Bucket.safe ∧
      getExpiryStatus (YmdInput.date t) t = Bucket.dayBefore := by
  intro e t
  refine ⟨getExpiryStatus_date_eq e t, rfl, ?_⟩
  rw [getExpiryStatus_date_eq t t]
  rw [if_neg (lt_irrefl _), if_pos (by omega)]

/-- C8: a missing or unparseable validity-end string classifies as `safe` in
both the server classifier and the frontend classifier — both are total
functions that fail closed on malformed input (every JS comparison against
NaN is false, so the chain falls through to `safe`). -/
theorem classifiers_fail_closed :
    ∀ (t : CalDate) (now : Moment),
      getExpiryStatus YmdInput.empty t = Bucket.safe ∧
      getExpiryStatus YmdInput.invalid t = Bucket.safe ∧
      getExpiryStatusFE YmdInput.empty now = Bucket.safe ∧
      getExpiryStatusFE YmdInput.invalid now = Bucket.safe :=
  fun _ _ => ⟨rfl, rfl, rfl, rfl⟩

/-- C10: the frontend (date-fns `isPast` / `differenceInWeeks ≤ 2`) and the
server (`daysUntil ≤ 14`) classifiers disagree: with a validity-end 15 days
after "today" (taken at local midnight), the frontend's `weeksUntil` is
`trunc(15/7) = 2`, giving `2-weeks`, while the server's `daysUntil = 15`
falls past the 14-day check into the `month` bucket. -/
theorem frontend_server_classifiers_disagree :
    getExpiryStatusFE (YmdInput.date ⟨2026, 1, 16⟩) ⟨⟨2026, 1, 1⟩, 0⟩ = Bucket.twoWeeks ∧
    getExpiryStatus (YmdInput.date ⟨2026, 1, 16⟩) ⟨2026, 1, 1⟩ = Bucket.month ∧
    getExpiryStatusFE (YmdInput.date ⟨2026, 1, 16⟩) ⟨⟨2026, 1, 1⟩, 0⟩ ≠
      getExpiryStatus (YmdInput.date ⟨2026, 1, 16⟩) ⟨2026, 1, 1⟩ :=
  ⟨by decide, by decide, by decide⟩

lemma maxSentAt_eq_none {ts : List Int} : maxSentAt ts = none ↔ ts = [] := by
  cases ts with
  | nil => simp [maxSentAt]
  | cons t ts => cases h : maxSentAt ts <;> simp [maxSentAt, h]

lemma maxSentAt_mem {ts : List Int} {m : Int} (h : maxSentAt ts = some m) : m ∈ ts := by
  induction ts generalizing m with
  | nil => simp [maxSentAt] at h
  | cons t ts ih =>
    rw [maxSentAt] at h
    cases hts : maxSentAt ts with
    | none =>
      rw [hts] at h
      simp only [Option.some.injEq] at h
      simp [← h]
    | some m' =>
      rw [hts] at h
      simp only [Option.some.injEq] at h
      rcases max_choice t m' with hmx | hmx
      · simp [← h, hmx]
      · exact List.mem_cons_of_mem _ (ih (by rw [hts, ← h, hmx]))

lemma maxSentAt_ub {ts : List Int} {m : Int} (h : maxSentAt ts = some m) :
    ∀ t ∈ ts, t ≤ m := by
  induction ts generalizing m with
  | nil => simp
  | cons t ts ih =>
    rw [maxSentAt] at h
    cases hts : maxSentAt ts with
    | none =>
      rw [hts] at h
      simp only [Option.some.injEq] at h
      intro u hu
      rcases List.mem_cons.mp hu with hu | hu
      · omega
      · exact absurd hts (by simp [maxSentAt_eq_none, List.ne_nil_of_mem hu])
    | some m' =>
      rw [hts] at h
      simp only [Option.some.injEq] at h
      intro u hu
      rcases List.mem_cons.mp hu with hu | hu
      · subst hu; omega
      · have := ih (m := m') hts u hu
        have : u ≤ m' := this
        omega

/-- Membership in the overdue oracle's matched-row set, spelled out. -/
lemma mem_overdueMatches {r : EmailLog} {log : List EmailLog} {cid email mil : String} :
    r ∈ overdueMatches log cid email mil ↔
      r ∈ log ∧ r.certificationId = cid ∧ r.recipientEmail = email ∧
        r.emailType = "overdue" ∧ r.milestone = mil ∧ r.status = "sent" := by
  simp [overdueMatches, List.mem_filter, and_assoc]

lemma filter_sent_any (p : EmailLog → Bool)
    (hp : ∀ r, p r = true → r.status == "sent") (log : List EmailLog) :
    (log.filter fun r => r.status == "sent").any p = log.any p := by
  induction log with
  | nil => rfl
  | cons r rest ih =>
    simp only [List.filter_cons, List.any_cons]
    by_cases h : (r.status == "sent") = true
    · rw [if_pos h]
      simp [List.any_cons, ih]
    · rw [if_neg h, ih]
      have hpr : p r = false := by
        cases hc : p r
        · rfl
        · exact absurd (hp r hc) h
      simp [hpr]

lemma filter_sent_filter (p : EmailLog → Bool)
    (hp : ∀ r, p r = true → r.status == "sent") (log : List EmailLog) :
    (log.filter fun r => r.status == "sent").filter p = log.filter p := by
  induction log with
  | nil => rfl
  | cons r rest ih =>
    simp only [List.filter_cons]
    by_cases h : (r.status == "sent") = true
    · rw [if_pos h]
      simp only [List.filter_cons, ih]
    · rw [if_neg h, ih]
      have hpr : p r = false := by
        cases hc : p r
        · rfl
        · exact absurd (hp r hc) h
      rw [if_neg (by simp [hpr])]

/-- The reminder oracle as an existence statement over the log. -/
lemma hasSentMilestone_iff (log : List EmailLog) (cid email mil : String)
    (h : ∀ r ∈ log, r.milestone = mil → r.emailType = "reminder") :
    hasSentMilestone log cid email mil = true ↔
      ∃ r ∈ log, r.certificationId = cid ∧ r.recipientEmail = email ∧
        r.milestone = mil ∧ r.status = "sent" := by
  unfold hasSentMilestone
  rw [List.any_eq_true]
  constructor
  · rintro ⟨r, hr, hp⟩
    refine ⟨r, hr, ?_⟩
    revert hp
    simp only [Bool.and_eq_true, beq_iff_eq]
    tauto
  · rintro ⟨r, hr, h1, h2, h3, h4⟩
    exact ⟨r, hr, by simp [h1, h2, h3, h4, h r hr h3]⟩

/-- C2: in the milestone (reminder) regime the notification is owed iff the
log holds no `sent` record for the exact (certification, recipient,
milestone) tuple; a successful send suppresses the milestone permanently
(any extension of the log keeps it suppressed); and in both regimes `failed`
records never contribute — the oracles' answers only depend on the `sent`
rows.  The hypothesis is the log well-formedness invariant maintained by the
dispatcher: rows carrying a reminder milestone key are typed `reminder`. -/
theorem reminder_dedup_one_shot (log : List EmailLog) (cid email mil : String) (today : Int)
    (h : ∀ r ∈ log, r.milestone = mil → r.emailType = "reminder") :
    (hasSentMilestone log cid email mil = false ↔
      ¬ ∃ r ∈ log, r.certificationId = cid ∧ r.recipientEmail = email ∧
        r.milestone = mil ∧ r.status = "sent") ∧
    (hasSentMilestone log cid email mil = true →
      ∀ more, hasSentMilestone (log ++ more) cid email mil = true) ∧
    hasSentMilestone (log.filter fun r => r.status == "sent") cid email mil =
      hasSentMilestone log cid email mil ∧
    hasSentOverdueToday (log.filter fun r => r.status == "sent") cid email mil today =
      hasSentOverdueToday log cid email mil today := by
  refine ⟨?_, ?_, ?_, ?_⟩
  · rw [show (hasSentMilestone log cid email mil = false) ↔
        ¬ (hasSentMilestone log cid email mil = true) by
      cases hasSentMilestone log cid email mil <;> simp]
    rw [hasSentMilestone_iff log cid email mil h]
  · intro htrue more
    unfold hasSentMilestone at htrue ⊢
    rw [List.any_append, htrue]
    rfl
  · exact filter_sent_any _ (fun r hr => by
      simp only [Bool.and_eq_true] at hr
      exact hr.2) log
  · unfold hasSentOverdueToday overdueMatches
    rw [filter_sent_filter _ (fun r hr => by
      simp only [Bool.and_eq_true] at hr
      exact hr.2) log]

/-- C3: in the overdue regime the notification is owed iff every most-recent
`sent` overdue record for the tuple (there is none, or a row of maximal
`sentAt`) has an IST calendar day strictly earlier than today's IST day —
one overdue notification per recipient per local calendar day.  The
hypothesis is that no logged row is in the future: each matched row's IST
day is at most today's. -/
theorem overdue_dedup_daily (log : List EmailLog) (cid email mil : String) (today : Int)
    (h : ∀ r ∈ overdueMatches log cid email mil, istDayOf r.sentAt ≤ today) :
    hasSentOverdueToday log cid email mil today = false ↔
      ∀ r ∈ log,
        (r.certificationId = cid ∧ r.recipientEmail = email ∧ r.emailType = "overdue" ∧
          r.milestone = mil ∧ r.status = "sent") →
        (∀ r' ∈ log,
          (r'.certificationId = cid ∧ r'.recipientEmail = email ∧ r'.emailType = "overdue" ∧
            r'.milestone = mil ∧ r'.status = "sent") → r'.sentAt ≤ r.sentAt) →
        istDayOf r.sentAt < today := by
  cases hmax : maxSentAt ((overdueMatches log cid email mil).map (·.sentAt)) with
  | none =>
    have hform : hasSentOverdueToday log cid email mil today = false := by
      unfold hasSentOverdueToday
      rw [hmax]
    have hnil : overdueMatches log cid email mil = [] :=
      List.map_eq_nil_iff.mp (maxSentAt_eq_none.mp hmax)
    rw [hform]
    constructor
    · intro _ r hr hmatch _
      exact absurd (mem_overdueMatches.mpr ⟨hr, hmatch⟩) (by simp [hnil])
    · intro _
      rfl
  | some m =>
    have hform : hasSentOverdueToday log cid email mil today = (istDayOf m == today) := by
      unfold hasSentOverdueToday
      rw [hmax]
    rw [hform]
    obtain ⟨rm, hrmMem, hrmEq⟩ := List.mem_map.mp (maxSentAt_mem hmax)
    have hub : ∀ r' ∈ overdueMatches log cid email mil, r'.sentAt ≤ m :=
      fun r' hr' => maxSentAt_ub hmax _ (List.mem_map.mpr ⟨r', hr', rfl⟩)
    have hrm := mem_overdueMatches.mp hrmMem
    constructor
    · intro hfalse r hr hmatch hmost
      have hrMem : r ∈ overdueMatches log cid email mil :=
        mem_overdueMatches.mpr ⟨hr, hmatch⟩
      have h1 : r.sentAt ≤ m := hub r hrMem
      have h2 : m ≤ r.sentAt := by
        rw [← hrmEq]
        exact hmost rm hrm.1 hrm.2
      have hEq : r.sentAt = m := le_antisymm h1 h2
      have hne : istDayOf m ≠ today := by simpa using hfalse
      have hle : istDayOf r.sentAt ≤ today := h r hrMem
      rw [hEq] at hle ⊢
      omega
    · intro hall
      have hmost : ∀ r' ∈ log,
          (r'.certificationId = cid ∧ r'.recipientEmail = email ∧
            r'.emailType = "overdue" ∧ r'.milestone = mil ∧ r'.status = "sent") →
          r'.sentAt ≤ rm.sentAt := by
        intro r' hr' hm'
        rw [hrmEq]
        exact hub r' (mem_overdueMatches.mpr ⟨hr', hm'⟩)
      have hlt := hall rm hrm.1 hrm.2 hmost
      rw [hrmEq] at hlt
      simp only [beq_eq_false_iff_ne, ne_eq]
      omega

/-- Witness for `reminder_dedup_one_shot`: on a concrete log holding one
`sent` reminder row and one `failed` row for the same tuple, the oracles
ignore the `failed` row. -/
theorem reminder_dedup_one_shot_witness :
    hasSentMilestone
      ([⟨"c1", "a@x", "reminder", "BIS:week", 5, "sent", none⟩,
        ⟨"c1", "a@x", "reminder", "BIS:week", 6, "failed", some "boom"⟩].filter
        fun r => r.status == "sent")
      "c1" "a@x" "BIS:week" =
      hasSentMilestone
        [⟨"c1", "a@x", "reminder", "BIS:week", 5, "sent", none⟩,
         ⟨"c1", "a@x", "reminder", "BIS:week", 6, "failed", some "boom"⟩]
        "c1" "a@x" "BIS:week" ∧
    hasSentOverdueToday
      ([⟨"c1", "a@x", "reminder", "BIS:week", 5, "sent", none⟩,
        ⟨"c1", "a@x", "reminder", "BIS:week", 6, "failed", some "boom"⟩].filter
        fun r => r.status == "sent")
      "c1" "a@x" "BIS:week" 100 =
      hasSentOverdueToday
        [⟨"c1", "a@x", "reminder", "BIS:week", 5, "sent", none⟩,
         ⟨"c1", "a@x", "reminder", "BIS:week", 6, "failed", some "boom"⟩]
        "c1" "a@x" "BIS:week" 100 :=
  (reminder_dedup_one_shot _ "c1" "a@x" "BIS:week" 100 (by decide)).2.2

/-- Witness for `overdue_dedup_daily`: a `sent` overdue row from an earlier
IST day does not suppress today's overdue notification. -/
theorem overdue_dedup_daily_witness :
    hasSentOverdueToday [⟨"c1", "a@x", "overdue", "BIS:overdue", 5, "sent", none⟩]
      "c1" "a@x" "BIS:overdue" 100 = false :=
  (overdue_dedup_daily _ "c1" "a@x" "BIS:overdue" 100 (by decide)).mpr (by decide)

/-! ## Dispatcher lemmas -/

/-- The audit rows a successful `logRows` loop starting at write-counter `k`
appends: one row per email, each stamped with the clock value at its own
write. -/
def rowsWritten (env : Env) (certId etype milestone status : String)
    (err : Option String) : Nat → List String → List EmailLog
  | _, [] => []
  | k, e :: rest =>
    ⟨certId, e, etype, milestone, env.clock k, status, truncErr err⟩ ::
      rowsWritten env certId etype milestone status err (k + 1) rest

lemma rowsWritten_mem (env : Env) (certId etype milestone status : String)
    (err : Option String) :
    ∀ (emails : List String) (k : Nat) (r : EmailLog),
      r ∈ rowsWritten env certId etype milestone status err k emails →
      r.certificationId = certId ∧ r.emailType = etype ∧ r.milestone = milestone ∧
        r.status = status ∧ r.error = truncErr err := by
  intro emails
  induction emails with
  | nil => intro k r hr; simp [rowsWritten] at hr
  | cons e rest ih =>
    intro k r hr
    rcases List.mem_cons.mp hr with hr | hr
    · subst hr; exact ⟨rfl, rfl, rfl, rfl, rfl⟩
    · exact ih (k + 1) r hr

lemma logRows_ok (env : Env) (certId : String) (etype milestone status : String)
    (err : Option String) :
    ∀ (emails : List String) (st : JobSt),
      (∀ k, k < emails.length → env.writeFails (st.wix + k) = none) →
      logRows env certId emails etype milestone status err st =
        ({ st with
            log := st.log ++ rowsWritten env certId etype milestone status err st.wix emails,
            wix := st.wix + emails.length }, none) := by
  intro emails
  induction emails with
  | nil => intro st _; simp [logRows, rowsWritten]
  | cons em rest ih =>
    intro st hw
    have h0 : env.writeFails st.wix = none := by
      have := hw 0 (by simp)
      simpa using this
    have hadd : addEmailLogRow env st certId em etype milestone status err =
        ({ st with
            log := st.log ++
              [⟨certId, em, etype, milestone, env.clock st.wix, status, truncErr err⟩],
            wix := st.wix + 1 }, none) := by
      unfold addEmailLogRow
      rw [h0]
    have hrec := ih { st with
        log := st.log ++
          [⟨certId, em, etype, milestone, env.clock st.wix, status, truncErr err⟩],
        wix := st.wix + 1 }
      (fun k hk => by
        have := hw (k + 1) (by simp only [List.length_cons]; omega)
        have harg : st.wix + 1 + k = st.wix + (k + 1) := by omega
        simpa [harg] using this)
    simp only [logRows, hadd, hrec]
    simp only [rowsWritten, Prod.mk.injEq, JobSt.mk.injEq, and_true, true_and]
    refine ⟨?_, ?_⟩
    · rw [List.append_assoc]
      rfl
    · simp only [List.length_cons]
      omega

/-- `logRows` when the `j`-th write throws (`j` least): the first `j` rows
stay durable, the loop stops, and the error is rethrown. -/
lemma logRows_fail (env : Env) (certId : String) (etype milestone status : String)
    (err : Option String) :
    ∀ (emails : List String) (st : JobSt) (j : Nat) (e : String),
      j < emails.length →
      env.writeFails (st.wix + j) = some e →
      (∀ k, k < j → env.writeFails (st.wix + k) = none) →
      logRows env certId emails etype milestone status err st =
        ({ st with
            log := st.log ++
              rowsWritten env certId etype milestone status err st.wix (emails.take j),
            wix := st.wix + j + 1 }, some e) := by
  intro emails
  induction emails with
  | nil => intro st j e hj _ _; exact absurd hj (by simp)
  | cons em rest ih =>
    intro st j e hj hfail hok
    cases j with
    | zero =>
      have hadd : addEmailLogRow env st certId em etype milestone status err =
          ({ st with wix := st.wix + 1 }, some e) := by
        unfold addEmailLogRow
        rw [show st.wix + 0 = st.wix from rfl] at hfail
        rw [hfail]
      simp [logRows, hadd, rowsWritten]
    | succ j' =>
      have h0 : env.writeFails st.wix = none := by
        have := hok 0 (by omega)
        simpa using this
      have hadd : addEmailLogRow env st certId em etype milestone status err =
          ({ st with
              log := st.log ++
                [⟨certId, em, etype, milestone, env.clock st.wix, status, truncErr err⟩],
              wix := st.wix + 1 }, none) := by
        unfold addEmailLogRow
        rw [h0]
      have hrec := ih { st with
          log := st.log ++
            [⟨certId, em, etype, milestone, env.clock st.wix, status, truncErr err⟩],
          wix := st.wix + 1 } j' e
        (by simpa using Nat.lt_of_succ_lt_succ hj)
        (by
          have harg : st.wix + 1 + j' = st.wix + (j' + 1) := by omega
          simpa [harg] using hfail)
        (fun k hk => by
          have := hok (k + 1) (by omega)
          have harg : st.wix + 1 + k = st.wix + (k + 1) := by omega
          simpa [harg] using this)
      simp only [logRows, hadd, hrec]
      simp only [List.take_succ_cons, rowsWritten, Prod.mk.injEq, JobSt.mk.injEq,
        and_true, true_and]
      refine ⟨?_, ?_⟩
      · rw [List.append_assoc]
        rfl
      · omega

/-! ## Concrete fixtures for dispatcher runs -/

/-- A certification row with every optional column empty. -/
def blankCert : Cert where
  id := "c1"
  plant := "Plant A"
  address := "Addr 1"
  attachmentName := "brochure.pdf"
  type := "BIS"
  rNo := ""
  status := ""
  modelList := ""
  standard := ""
  validityFrom := .empty
  validityUpto := .empty
  renewalStatus := ""
  alarmAlert := ""
  action := ""
  bisRNo := ""
  bisStatus := ""
  bisModelList := ""
  bisStandard := ""
  bisValidityFrom := .empty
  bisValidityUpto := .empty
  bisRenewalStatus := ""
  bisAlarmAlert := ""
  bisAction := ""
  iecRNo := ""
  iecStatus := ""
  iecModelList := ""
  iecStandard := ""
  iecValidityFrom := .empty
  iecValidityUpto := .empty
  iecRenewalStatus := ""
  iecAlarmAlert := ""
  iecAction := ""

/-- A legacy row whose validity ends on the run's "today" (bucket
`day-before`). -/
def certDue : Cert := { blankCert with rNo := "R1", validityUpto := .date ⟨2026, 1, 1⟩ }

/-- The virtual certification `expandCert certDue` produces. -/
def vcDue : VCert := ⟨{ certDue with type := "BIS" }, "BIS"⟩

def recipsAB : List Recipient := [⟨"a@x"⟩, ⟨"b@x"⟩]

def st0 : JobSt := ⟨[], 0, 0, 0, 0⟩

/-- Environment in which every write and every send succeeds and the wall
clock returns the write counter. -/
def envAllOk : Env :=
  ⟨fun k => (k : Int), fun _ => none, fun _ => none, ⟨2026, 1, 1⟩, 20454⟩

/-- Like `envAllOk` but the second audit-log write throws. -/
def envWriteFail : Env :=
  { envAllOk with writeFails := fun k => if k = 1 then some "disk full" else none }

/-- Like `envAllOk` but every send throws. -/
def envGatewayDown : Env := { envAllOk with gateway := fun _ => some "smtp down" }

/-! ## C4: batch send accounting -/

/-- C4 counterexample: with two owed recipients and a successful batched
send, the dispatcher writes one `sent` row per recipient and bumps the
`sent` counter once — but the rows do not share one timestamp captured once
per certification: `addEmailLogRow` reads the clock at each row's own write,
so under a ticking clock the two rows carry 0 and 1. -/
theorem batch_send_single_timestamp_cex :
    (runNotificationJob envAllOk recipsAB [certDue] []).1.log =
      [⟨"c1", "a@x", "reminder", "BIS:day-before", 0, "sent", none⟩,
       ⟨"c1", "b@x", "reminder", "BIS:day-before", 1, "sent", none⟩] ∧
    (runNotificationJob envAllOk recipsAB [certDue] []).1.sent = 1 ∧
    envAllOk.gateway 0 = none ∧
    ¬ ∀ r ∈ [(⟨"c1", "a@x", "reminder", "BIS:day-before", 0, "sent", none⟩ : EmailLog),
        ⟨"c1", "b@x", "reminder", "BIS:day-before", 1, "sent", none⟩],
      ∀ r' ∈ [(⟨"c1", "a@x", "reminder", "BIS:day-before", 0, "sent", none⟩ : EmailLog),
        ⟨"c1", "b@x", "reminder", "BIS:day-before", 1, "sent", none⟩],
      r.sentAt = r'.sentAt :=
  ⟨rfl, rfl, rfl, by decide⟩

/-- C4 as amended: on a successful batched send the dispatcher writes
exactly one `sent` audit row per recipient of the send list — each stamped
with the clock value read at its own write (`clock (wix + i)` for the `i`-th
recipient), not one shared capture — and increments the run's `sent` counter
by exactly 1 for the whole certification. -/
theorem batch_send_per_recipient_rows (env : Env) (recipients : List Recipient)
    (vc : VCert) (st : JobSt)
    (hstatus : certStatus env vc ≠ Bucket.safe)
    (hsend : certToSend env recipients vc st.log ≠ [])
    (hgw : env.gateway st.six = none)
    (hw : ∀ k, k < (certToSend env recipients vc st.log).length →
      env.writeFails (st.wix + k) = none) :
    processVCert env recipients vc st =
      ({ st with
          log := st.log ++
            rowsWritten env vc.row.id (certEmailType env vc) (certMilestone env vc)
              "sent" none st.wix
              ((certToSend env recipients vc st.log).map (·.email)),
          sent := st.sent + 1,
          wix := st.wix + (certToSend env recipients vc st.log).length,
          six := st.six + 1 }, none) := by
  have hlog := logRows_ok env vc.row.id (certEmailType env vc) (certMilestone env vc)
    "sent" none ((certToSend env recipients vc st.log).map (·.email))
    { st with six := st.six + 1 }
    (fun k hk => hw k (by simpa using hk))
  simp only [processVCert]
  rw [if_neg hstatus, if_neg hsend, hgw]
  simp only [hlog, List.length_map]

/-- Witness for `batch_send_per_recipient_rows` at the concrete all-success
run. -/
theorem batch_send_per_recipient_rows_witness :
    processVCert envAllOk recipsAB vcDue st0 =
      ({ st0 with
          log := st0.log ++
            rowsWritten envAllOk vcDue.row.id (certEmailType envAllOk vcDue)
              (certMilestone envAllOk vcDue) "sent" none st0.wix
              ((certToSend envAllOk recipsAB vcDue st0.log).map (·.email)),
          sent := st0.sent + 1,
          wix := st0.wix + (certToSend envAllOk recipsAB vcDue st0.log).length,
          six := st0.six + 1 }, none) :=
  batch_send_per_recipient_rows envAllOk recipsAB vcDue st0
    (by decide) (by decide) rfl (fun k _ => rfl)

/-! ## C5: gateway failure handling -/

/-- C5: when the batched send throws, the dispatcher writes exactly one
`failed` audit row per recipient of the send list, each carrying the error
detail truncated to 4000 units, leaves the `sent` counter unchanged, and
continues with the next stored certification instead of aborting the outer
loop. -/
theorem gateway_failure_records (env : Env) (recipients : List Recipient)
    (vc : VCert) (st : JobSt) (g : String)
    (hstatus : certStatus env vc ≠ Bucket.safe)
    (hsend : certToSend env recipients vc st.log ≠ [])
    (hgw : env.gateway st.six = some g)
    (hg : g ≠ "")
    (hw : ∀ k, k < (certToSend env recipients vc st.log).length →
      env.writeFails (st.wix + k) = none) :
    processVCert env recipients vc st =
      ({ st with
          log := st.log ++
            rowsWritten env vc.row.id (certEmailType env vc) (certMilestone env vc)
              "failed" (some g) st.wix
              ((certToSend env recipients vc st.log).map (·.email)),
          wix := st.wix + (certToSend env recipients vc st.log).length,
          six := st.six + 1 }, none) ∧
    (∀ r ∈ rowsWritten env vc.row.id (certEmailType env vc) (certMilestone env vc)
        "failed" (some g) st.wix
        ((certToSend env recipients vc st.log).map (·.email)),
      r.status = "failed" ∧ r.error = some (String.mk (g.toList.take 4000))) ∧
    (∀ (p : Cert) (restP : List Cert),
      expandCert p = [vc] →
      processParents env recipients (p :: restP) st =
        processParents env recipients restP
          { st with
              log := st.log ++
                rowsWritten env vc.row.id (certEmailType env vc) (certMilestone env vc)
                  "failed" (some g) st.wix
                  ((certToSend env recipients vc st.log).map (·.email)),
              wix := st.wix + (certToSend env recipients vc st.log).length,
              six := st.six + 1 }) := by
  have hlog := logRows_ok env vc.row.id (certEmailType env vc) (certMilestone env vc)
    "failed" (some g) ((certToSend env recipients vc st.log).map (·.email))
    { st with six := st.six + 1 }
    (fun k hk => hw k (by simpa using hk))
  have hmain : processVCert env recipients vc st =
      ({ st with
          log := st.log ++
            rowsWritten env vc.row.id (certEmailType env vc) (certMilestone env vc)
              "failed" (some g) st.wix
              ((certToSend env recipients vc st.log).map (·.email)),
          wix := st.wix + (certToSend env recipients vc st.log).length,
          six := st.six + 1 }, none) := by
    simp only [processVCert]
    rw [if_neg hstatus, if_neg hsend, hgw]
    simp only [hlog, List.length_map]
  refine ⟨hmain, ?_, ?_⟩
  · intro r hr
    have h := rowsWritten_mem env vc.row.id (certEmailType env vc) (certMilestone env vc)
      "failed" (some g) _ _ r hr
    refine ⟨h.2.2.2.1, ?_⟩
    rw [h.2.2.2.2]
    simp only [truncErr]
    rw [if_neg (by simpa using hg)]
  · intro p restP hexp
    simp only [processParents, hexp]
    rw [if_neg (by simp)]
    simp only [processVirtuals, hmain]

/-- Witness for `gateway_failure_records` at the concrete gateway-down
run. -/
theorem gateway_failure_records_witness :
    processVCert envGatewayDown recipsAB vcDue st0 =
      ({ st0 with
          log := st0.log ++
            rowsWritten envGatewayDown vcDue.row.id (certEmailType envGatewayDown vcDue)
              (certMilestone envGatewayDown vcDue) "failed" (some "smtp down") st0.wix
              ((certToSend envGatewayDown recipsAB vcDue st0.log).map (·.email)),
          wix := st0.wix + (certToSend envGatewayDown recipsAB vcDue st0.log).length,
          six := st0.six + 1 }, none) :=
  (gateway_failure_records envGatewayDown recipsAB vcDue st0 "smtp down"
    (by decide) (by decide) rfl (by decide) (fun k _ => rfl)).1

/-! ## C6: audit-write failure semantics -/

/-- C6 counterexample: with a successful send, a storage failure while
writing the second recipient's `sent` row is caught by the same
per-certification `catch` as gateway errors — the run then records `failed`
rows for *both* recipients, keeps the first recipient's already-durable
`sent` row, and `runNotificationJob` returns without any propagated error,
contradicting "not caught locally / propagates to the caller of run() / no
sent record is durably written". -/
theorem audit_write_error_not_propagated_cex :
    envWriteFail.writeFails 1 = some "disk full" ∧
    (runNotificationJob envWriteFail recipsAB [certDue] []).2 = none ∧
    (runNotificationJob envWriteFail recipsAB [certDue] []).1.log =
      [⟨"c1", "a@x", "reminder", "BIS:day-before", 0, "sent", none⟩,
       ⟨"c1", "a@x", "reminder", "BIS:day-before", 2, "failed", some "disk full"⟩,
       ⟨"c1", "b@x", "reminder", "BIS:day-before", 3, "failed", some "disk full"⟩] ∧
    (runNotificationJob envWriteFail recipsAB [certDue] []).1.sent = 0 :=
  ⟨rfl, rfl, rfl, rfl⟩

/-- C6 as amended: an error raised while writing a `sent` audit row is
caught by the per-certification handler (the `try/catch` around send and
logging), which then writes `failed` rows for every recipient of the send
list — the `sent` rows already written stay durable — and the job continues;
only an error escaping that handler (a storage failure while writing the
`failed` rows themselves) propagates to the caller of `run()`, aborting the
remainder of the entire run, not just that certification's processing. -/
theorem audit_write_error_caught_locally (env : Env) (recipients : List Recipient)
    (vc : VCert) (st : JobSt) (j : Nat) (e : String)
    (hstatus : certStatus env vc ≠ Bucket.safe)
    (hsend : certToSend env recipients vc st.log ≠ [])
    (hgw : env.gateway st.six = none)
    (hj : j < (certToSend env recipients vc st.log).length)
    (hfail : env.writeFails (st.wix + j) = some e)
    (hokb : ∀ k, k < j → env.writeFails (st.wix + k) = none)
    (hokc : ∀ k, k < (certToSend env recipients vc st.log).length →
      env.writeFails (st.wix + j + 1 + k) = none) :
    processVCert env recipients vc st =
      ({ st with
          log := st.log ++
            rowsWritten env vc.row.id (certEmailType env vc) (certMilestone env vc)
              "sent" none st.wix
              (((certToSend env recipients vc st.log).map (·.email)).take j) ++
            rowsWritten env vc.row.id (certEmailType env vc) (certMilestone env vc)
              "failed" (some e) (st.wix + j + 1)
              ((certToSend env recipients vc st.log).map (·.email)),
          wix := st.wix + j + 1 + (certToSend env recipients vc st.log).length,
          six := st.six + 1 }, none) ∧
    (∀ (vc' : VCert) (st1 st2 : JobSt) (e' : String) (rest : List VCert),
      processVCert env recipients vc' st1 = (st2, some e') →
      processVirtuals env recipients (vc' :: rest) st1 = (st2, some e')) ∧
    (∀ (p : Cert) (st1 st2 : JobSt) (e' : String) (restP : List Cert),
      expandCert p ≠ [] →
      processVirtuals env recipients (expandCert p) st1 = (st2, some e') →
      processParents env recipients (p :: restP) st1 = (st2, some e')) := by
  refine ⟨?_, ?_, ?_⟩
  · have hfailRun := logRows_fail env vc.row.id (certEmailType env vc) (certMilestone env vc)
      "sent" none ((certToSend env recipients vc st.log).map (·.email))
      { st with six := st.six + 1 } j e
      (by simpa using hj)
      (by simpa using hfail)
      (fun k hk => by simpa using hokb k hk)
    have hcatch := logRows_ok env vc.row.id (certEmailType env vc) (certMilestone env vc)
      "failed" (some e) ((certToSend env recipients vc st.log).map (·.email))
      { st with
          log := st.log ++
            rowsWritten env vc.row.id (certEmailType env vc) (certMilestone env vc)
              "sent" none st.wix
              (((certToSend env recipients vc st.log).map (·.email)).take j),
          wix := st.wix + j + 1,
          six := st.six + 1 }
      (fun k hk => by simpa using hokc k (by simpa using hk))
    simp only [processVCert]
    rw [if_neg hstatus, if_neg hsend, hgw]
    simp only [hfailRun, hcatch, List.length_map]
  · intro vc' st1 st2 e' rest hstep
    simp only [processVirtuals, hstep]
  · intro p st1 st2 e' restP hexp hstep
    simp only [processParents]
    rw [if_neg hexp]
    simp only [hstep]

/-- Witness for `audit_write_error_caught_locally` at the concrete
second-write-fails run. -/
theorem audit_write_error_caught_locally_witness :
    processVCert envWriteFail recipsAB vcDue st0 =
      ({ st0 with
          log := st0.log ++
            rowsWritten envWriteFail vcDue.row.id (certEmailType envWriteFail vcDue)
              (certMilestone envWriteFail vcDue) "sent" none st0.wix
              (((certToSend envWriteFail recipsAB vcDue st0.log).map (·.email)).take 1) ++
            rowsWritten envWriteFail vcDue.row.id (certEmailType envWriteFail vcDue)
              (certMilestone envWriteFail vcDue) "failed" (some "disk full") (st0.wix + 1 + 1)
              ((certToSend envWriteFail recipsAB vcDue st0.log).map (·.email)),
          wix := st0.wix + 1 + 1 + (certToSend envWriteFail recipsAB vcDue st0.log).length,
          six := st0.six + 1 }, none) :=
  (audit_write_error_caught_locally envWriteFail recipsAB vcDue st0 1 "disk full"
    (by decide) (by decide) rfl (by decide) rfl
    (fun k hk => by interval_cases k; rfl)
    (fun k hk => by
      have : envWriteFail.writeFails (st0.wix + 1 + 1 + k) = none := by
        show (if st0.wix + 1 + 1 + k = 1 then some "disk full" else none) = none
        rw [if_neg (by omega)]
      exact this)).1

/-! ## C7: virtual-row expansion -/

/-- C7: a stored row without legacy row-wise fields that carries both the
scheme-A (BIS) and scheme-B (IEC) sub-field groups expands into one virtual
certification per scheme — each inheriting the shared plant/address/
attachment fields through the row spread while carrying its own registration
number, status and validity window — and a row from which no virtual
certification can be derived is counted as skipped by the dispatcher loop,
not treated as an error. -/
theorem combined_row_expansion (p q : Cert)
    (hpleg : p.rNo = "" ∧ p.validityUpto = YmdInput.empty ∧
      p.validityFrom = YmdInput.empty ∧ p.status = "" ∧ p.modelList = "" ∧
      p.standard = "" ∧ p.action = "" ∧ p.alarmAlert = "")
    (hpB : (p.bisRNo != "" || p.bisValidityUpto.truthy ||
      p.bisValidityFrom.truthy || p.bisStatus != "") = true)
    (hpI : (p.iecRNo != "" || p.iecValidityUpto.truthy ||
      p.iecValidityFrom.truthy || p.iecStatus != "") = true)
    (hqleg : q.rNo = "" ∧ q.validityUpto = YmdInput.empty ∧
      q.validityFrom = YmdInput.empty ∧ q.status = "" ∧ q.modelList = "" ∧
      q.standard = "" ∧ q.action = "" ∧ q.alarmAlert = "")
    (hqB : (q.bisRNo != "" || q.bisValidityUpto.truthy ||
      q.bisValidityFrom.truthy || q.bisStatus != "") = false)
    (hqI : (q.iecRNo != "" || q.iecValidityUpto.truthy ||
      q.iecValidityFrom.truthy || q.iecStatus != "") = false) :
    expandCert p =
      [⟨{ p with
            type := "BIS", rNo := p.bisRNo, status := p.bisStatus,
            modelList := p.bisModelList, standard := p.bisStandard,
            validityFrom := p.bisValidityFrom, validityUpto := p.bisValidityUpto,
            renewalStatus := p.bisRenewalStatus, alarmAlert := p.bisAlarmAlert,
            action := p.bisAction }, "BIS"⟩,
       ⟨{ p with
            type := "IEC", rNo := p.iecRNo, status := p.iecStatus,
            modelList := p.iecModelList, standard := p.iecStandard,
            validityFrom := p.iecValidityFrom, validityUpto := p.iecValidityUpto,
            renewalStatus := p.iecRenewalStatus, alarmAlert := p.iecAlarmAlert,
            action := p.iecAction }, "IEC"⟩] ∧
    expandCert q = [] ∧
    (∀ (env : Env) (recipients : List Recipient) (st : JobSt) (restP : List Cert),
      processParents env recipients (q :: restP) st =
        processParents env recipients restP { st with skipped := st.skipped + 1 }) := by
  obtain ⟨p1, p2, p3, p4, p5, p6, p7, p8⟩ := hpleg
  obtain ⟨q1, q2, q3, q4, q5, q6, q7, q8⟩ := hqleg
  have hq : expandCert q = [] := by
    simp only [expandCert, q1, q2, q3, q4, q5, q6, q7, q8, YmdInput.truthy]
    simp
    exact ⟨by simpa using hqB, by simpa using hqI⟩
  refine ⟨?_, hq, ?_⟩
  · simp only [expandCert, p1, p2, p3, p4, p5, p6, p7, p8, YmdInput.truthy]
    simp
    rw [if_pos (by simpa using hpB), if_pos (by simpa using hpI)]
    rfl
  · intro env recipients st restP
    simp [processParents, hq]

/-- Witness for `combined_row_expansion`: a concrete combined row expands
into its BIS and IEC virtual certifications, and a fully blank row expands
to nothing. -/
theorem combined_row_expansion_witness :
    expandCert { blankCert with rNo := "", bisRNo := "B1", iecRNo := "I1" } =
      [⟨{ { blankCert with rNo := "", bisRNo := "B1", iecRNo := "I1" } with
            type := "BIS", rNo := "B1", status := "", modelList := "",
            standard := "", validityFrom := .empty, validityUpto := .empty,
            renewalStatus := "", alarmAlert := "", action := "" }, "BIS"⟩,
       ⟨{ { blankCert with rNo := "", bisRNo := "B1", iecRNo := "I1" } with
            type := "IEC", rNo := "I1", status := "", modelList := "",
            standard := "", validityFrom := .empty, validityUpto := .empty,
            renewalStatus := "", alarmAlert := "", action := "" }, "IEC"⟩] ∧
    expandCert blankCert = [] := by
  have h := combined_row_expansion
    { blankCert with rNo := "", bisRNo := "B1", iecRNo := "I1" } blankCert
    (by decide) (by decide) (by decide) (by decide) (by decide) (by decide)
  exact ⟨h.1, h.2.1⟩

/-! ## C9: scheduler -/

lemma istMin_nonneg (t : Int) : 0 ≤ istMin t :=
  Int.emod_nonneg _ (by norm_num)

lemma istDayOf_mono {a b : Int} (h : a ≤ b) : istDayOf a ≤ istDayOf b := by
  unfold istDayOf MS_PER_DAY
  rw [Int.fdiv_eq_ediv _ (by norm_num), Int.fdiv_eq_ediv _ (by norm_num)]
  omega

/-- The tick gate, as a proposition: IST time at or past 09:00 and the
marker differs from today's IST day. -/
lemma schedTick_fired_iff (runOk : Nat → Bool) (st : SchedSt) (now : Int) :
    (schedTick runOk st now).2 = true ↔
      (9 ≤ istHour now ∧ st.lastRunYmd ≠ some (istDayOf now)) := by
  have hmm := istMin_nonneg now
  simp only [schedTick]
  split
  case isTrue h =>
    simp only [Bool.and_eq_true, Bool.or_eq_true, decide_eq_true_eq, beq_iff_eq,
      bne_iff_ne, ne_eq] at h
    constructor
    · intro _
      refine ⟨?_, h.2⟩
      rcases h.1 with h1 | h1
      · omega
      · omega
    · intro _
      split <;> rfl
  case isFalse h =>
    simp only [Bool.and_eq_true, Bool.or_eq_true, decide_eq_true_eq, beq_iff_eq,
      bne_iff_ne, ne_eq, not_and, not_or] at h
    constructor
    · intro hc
      exact absurd hc (by simp)
    · intro hc
      exfalso
      by_cases h9 : istHour now > 9
      · exact (h (Or.inl h9)) hc.2
      · have h9' : istHour now = 9 := by omega
        exact (h (Or.inr ⟨h9', hmm⟩)) hc.2

lemma schedTick_marker (runOk : Nat → Bool) (st : SchedSt) (now : Int) :
    (schedTick runOk st now).1.lastRunYmd =
      (if (schedTick runOk st now).2 = true ∧ runOk st.runIdx = true
       then some (istDayOf now) else st.lastRunYmd) := by
  simp only [schedTick]
  split
  · split
    case isTrue hok => simp [hok]
    case isFalse hok => simp [hok]
  · simp

lemma schedTick_not_fired {runOk : Nat → Bool} {st : SchedSt} {now : Int}
    (h : (schedTick runOk st now).2 = false) : (schedTick runOk st now).1 = st := by
  revert h
  simp only [schedTick]
  split
  · split <;> simp
  · simp

/-- After the first completed run, later invocations in a time-ordered tick
sequence land on strictly later IST days. -/
lemma schedRun_bounded (runOk : Nat → Bool) (hok : ∀ i, runOk i = true) :
    ∀ (ticks : List Int) (st : SchedSt),
      List.Pairwise (· ≤ ·) ticks →
      (List.Chain' (· < ·) (schedRun runOk ticks st).2 ∧
        (∀ z ∈ (schedRun runOk ticks st).2, ∀ y, st.lastRunYmd = some y →
          (∀ u ∈ ticks, y ≤ istDayOf u) → y < z)) := by
  intro ticks
  induction ticks with
  | nil => simp [schedRun]
  | cons t ts ih =>
    intro st hpw
    have hpw' : List.Pairwise (· ≤ ·) ts := (List.pairwise_cons.mp hpw).2
    have hts : ∀ u ∈ ts, t ≤ u := (List.pairwise_cons.mp hpw).1
    by_cases hfire : (schedTick runOk st t).2 = true
    · have hmk : (schedTick runOk st t).1.lastRunYmd = some (istDayOf t) := by
        rw [schedTick_marker]
        rw [if_pos ⟨hfire, hok st.runIdx⟩]
      obtain ⟨ihChain, ihBound⟩ := ih (schedTick runOk st t).1 hpw'
      have hbound : ∀ z ∈ (schedRun runOk ts (schedTick runOk st t).1).2,
          istDayOf t < z := by
        intro z hz
        exact ihBound z hz (istDayOf t) hmk
          (fun u hu => istDayOf_mono (hts u hu))
      constructor
      · show List.Chain' (· < ·) ((schedRun runOk (t :: ts) st).2)
        have hout : (schedRun runOk (t :: ts) st).2 =
            istDayOf t :: (schedRun runOk ts (schedTick runOk st t).1).2 := by
          simp [schedRun, hfire]
        rw [hout]
        rw [List.chain'_cons']
        exact ⟨fun w hw => hbound w (List.mem_of_mem_head? hw), ihChain⟩
      · intro z hz y hy hyle
        have hout : (schedRun runOk (t :: ts) st).2 =
            istDayOf t :: (schedRun runOk ts (schedTick runOk st t).1).2 := by
          simp [schedRun, hfire]
        rw [hout] at hz
        have hne : y ≠ istDayOf t := by
          have := (schedTick_fired_iff runOk st t).mp hfire
          intro hcontra
          exact this.2 (by rw [hy, hcontra])
        have hylt : y < istDayOf t := by
          have := hyle t (List.mem_cons_self t ts)
          omega
        rcases List.mem_cons.mp hz with hz | hz
        · omega
        · have := hbound z hz
          omega
    · have hfire' : (schedTick runOk st t).2 = false := by
        cases hval : (schedTick runOk st t).2
        · rfl
        · exact absurd hval hfire
      have hst : (schedTick runOk st t).1 = st := schedTick_not_fired hfire'
      have hout : (schedRun runOk (t :: ts) st).2 =
          (schedRun runOk ts st).2 := by
        simp [schedRun, hfire', hst]
      obtain ⟨ihChain, ihBound⟩ := ih st hpw'
      rw [hout]
      exact ⟨ihChain, fun z hz y hy hyle =>
        ihBound z hz y hy (fun u hu => hyle u (List.mem_cons_of_mem _ hu))⟩

/-- C9: a scheduler tick invokes the dispatcher iff IST time is at or past
the 09:00 trigger and the in-memory marker differs from today's IST day; the
marker becomes today only when the invoked run completes (a thrown run is
swallowed by the catch and leaves the marker unchanged, a skipped tick
changes nothing); and consequently, when every run completes, a
time-ordered tick sequence invokes the dispatcher on strictly increasing
IST days — at most once per calendar day per process lifetime. -/
theorem scheduler_once_per_day (runOk : Nat → Bool) (st : SchedSt) (now : Int)
    (ticks : List Int) :
    ((schedTick runOk st now).2 = true ↔
      (9 ≤ istHour now ∧ st.lastRunYmd ≠ some (istDayOf now))) ∧
    ((schedTick runOk st now).1.lastRunYmd =
      (if (schedTick runOk st now).2 = true ∧ runOk st.runIdx = true
       then some (istDayOf now) else st.lastRunYmd)) ∧
    ((schedTick runOk st now).2 = false → (schedTick runOk st now).1 = st) ∧
    (List.Chain' (· ≤ ·) ticks → (∀ i, runOk i = true) →
      List.Chain' (· < ·) (schedRun runOk ticks st).2) := by
  refine ⟨schedTick_fired_iff runOk st now, schedTick_marker runOk st now,
    fun h => schedTick_not_fired h, ?_⟩
  intro hchain hok
  exact (schedRun_bounded runOk hok ticks st
    (List.chain'_iff_pairwise.mp hchain)).1

/-- Witness for `scheduler_once_per_day`: two ticks at 10:00 IST on
consecutive days each trigger exactly one run. -/
theorem scheduler_once_per_day_witness :
    List.Chain' (· < ·)
      (schedRun (fun _ => true)
        [20454 * 86400000 - 19800000 + 36000000,
         20455 * 86400000 - 19800000 + 36000000] ⟨none, 0⟩).2 :=
  (scheduler_once_per_day (fun _ => true) ⟨none, 0⟩ 0
    [20454 * 86400000 - 19800000 + 36000000,
     20455 * 86400000 - 19800000 + 36000000]).2.2.2
    (by norm_num [List.chain'_cons, List.chain'_singleton]) (fun _ => rfl)

end CertSentinel
